import Mathlib

/-!
Verification development for the `env-secure` utility (Dhruv9051/env-secure).

The source is JavaScript (`src/lib/secure-env.js`, `src/bin/env-secure.js`).
We shallowly embed the core logic over `List Char` (JS strings are character
sequences).  The cryptographic primitives (`crypto.scryptSync`,
AES-256-CBC via `createCipheriv`/`createDecipheriv`) are modelled as an
ideal symmetric cipher: `scryptSync` is a deterministic injective key
derivation (modelled symbolically), encryption produces a hex token whose
ciphertext body is an invertible hex encoding of the plaintext bound to the
derived key, and decryption with a non-matching derived key fails with a
"bad decrypt" error, which is how a wrong CBC key surfaces through PKCS#7
padding validation (in the real cipher this failure is only
overwhelmingly probable; the ideal model makes it certain, matching the
spec's stated guarantees).  Random IVs are supplied externally as a
sequence `ivs : Nat → Nat` of 16-byte draws, mirroring `crypto.randomBytes(16)`.

Everything else (splitting, trimming, regex matches, the line loops, the
file framing, the CLI rotate action) is translated directly from the
source.
-/

set_option autoImplicit false
set_option maxRecDepth 100000

namespace EnvSecure

/-- JS strings are modelled as lists of characters. -/
abbrev Str := List Char

/-- `const salt = "some-fixed-salt"` (secure-env.js line 7). -/
def salt : Str := "some-fixed-salt".data

/-- `const keyLength = 32` (secure-env.js line 8). -/
def keyLength : Nat := 32

/-- The reserved label `ENV_SECURE_KEY=` used by the regexes in
`getSecretKey`/`decryptEnv` and by `updateSecretKey`. -/
def label : Str := "ENV_SECURE_KEY=".data

/-- Lower-case hex digit for a nibble, as produced by Node's
`toString("hex")`/hex encoding. -/
def hexDigitChar (n : Nat) : Char :=
  match n with
  | 0 => '0' | 1 => '1' | 2 => '2' | 3 => '3'
  | 4 => '4' | 5 => '5' | 6 => '6' | 7 => '7'
  | 8 => '8' | 9 => '9' | 10 => 'a' | 11 => 'b'
  | 12 => 'c' | 13 => 'd' | 14 => 'e' | _ => 'f'

/-- Node's hex decoder accepts both lower- and upper-case digits. -/
def isHexDigit (c : Char) : Bool :=
  "0123456789abcdefABCDEF".data.contains c

/-- Little-endian fixed-width hex rendering of a natural number
(`w` nibbles).  Models the hex serialization of byte buffers; only its
shape (length, character set) is relevant to the file format. -/
def natToHexLE : Nat → Nat → Str
  | 0, _ => []
  | w + 1, n => hexDigitChar (n % 16) :: natToHexLE w (n / 16)

/-- Numeric value of a little-endian hex digit list. -/
def hexDigitVal (c : Char) : Nat :=
  match c with
  | '0' => 0 | '1' => 1 | '2' => 2 | '3' => 3
  | '4' => 4 | '5' => 5 | '6' => 6 | '7' => 7
  | '8' => 8 | '9' => 9 | 'a' => 10 | 'b' => 11
  | 'c' => 12 | 'd' => 13 | 'e' => 14 | _ => 15

def hexLEToNat : Str → Nat
  | [] => 0
  | c :: r => hexDigitVal c + 16 * hexLEToNat r

/-- Hex encoding of one character of plaintext: six nibbles, enough for
every Unicode scalar value (`0x10FFFF < 16^6`). -/
def charToHex (c : Char) : Str :=
  [hexDigitChar (c.toNat % 16), hexDigitChar (c.toNat / 16 % 16),
   hexDigitChar (c.toNat / 256 % 16), hexDigitChar (c.toNat / 4096 % 16),
   hexDigitChar (c.toNat / 65536 % 16), hexDigitChar (c.toNat / 1048576 % 16)]

/-- Hex encoding of a whole string, character by character. -/
def strToHex : Str → Str
  | [] => []
  | c :: t => charToHex c ++ strToHex t

/-- Chunk separating the key-binding part of a ciphertext body from the
encoded plaintext.  `"ffffff"` decodes to `16^6 - 1`, which is not a valid
Unicode scalar value, so it never collides with an encoded character. -/
def sepChunk : Str := ['f', 'f', 'f', 'f', 'f', 'f']

/-- Inverse of `strToHex`: decode six nibbles at a time. -/
def hexToStr : Str → Option Str
  | [] => some []
  | a :: b :: c :: d :: e :: f :: rest =>
    (hexToStr rest).map (Char.ofNat (hexLEToNat [a, b, c, d, e, f]) :: ·)
  | _ => none

/-- Count of leading complete hex pairs, mirroring Node's lenient hex
decoding (`Buffer.from(s, "hex")` stops at the first invalid pair and an
incomplete trailing digit): the resulting buffer holds this many bytes. -/
def hexPairCount : Str → Nat
  | a :: b :: r => if isHexDigit a && isHexDigit b then hexPairCount r + 1 else 0
  | _ => 0

/-- Key material passed to the cipher functions.  In the source the
`secretKey` argument of `encryptString`/`decryptString` is either a JS
string (the secret key) or a `Buffer` previously produced by
`crypto.scryptSync(passphrase, salt, keyLength)`; both are fed to
`scryptSync` again inside the cipher functions. -/
inductive KeyM where
  /-- A plain string key (the secret key read from the `.env` file). -/
  | raw (s : Str)
  /-- `crypto.scryptSync(input, salt, len)`: the derived-key buffer,
  represented symbolically by its inputs (scrypt is deterministic). -/
  | derived (input : Str) (saltUsed : Str) (len : Nat)
  deriving DecidableEq

/-- JS falsiness of the `secretKey` argument: an empty string is falsy,
a `Buffer` object is always truthy. -/
def keyFalsy : KeyM → Bool
  | .raw s => s.isEmpty
  | .derived _ _ _ => false

/-- Validity of key material per the spec's "valid key": non-empty string
material, or a derived-key buffer. -/
def KeyM.valid : KeyM → Bool
  | .raw s => !s.isEmpty
  | .derived _ _ _ => true

/-- Symbolic rendering of the 32-byte key `crypto.scryptSync(secretKey,
salt, keyLength)` computed inside `encryptString`/`decryptString`.
scrypt is deterministic and (ideally) collision-free, so the derived key
is faithfully represented by an injective serialization of its input
material.  Decryption succeeds exactly when the derived keys coincide. -/
def deriveFlat : KeyM → Str
  | .raw s => '0' :: s
  | .derived p sl n => '1' :: (natToHexLE 6 n ++ sl ++ p)

/-- Error outcomes of the embedded operations, one constructor per
distinct failure site of the source (labelled with the spec's error
taxonomy where the correspondence is one-to-one). -/
inductive Err where
  /-- `"Text and secret key are required for encryption."` /
  `"Encrypted text and secret key are required for decryption."` /
  `"Passphrase cannot be empty."` — the spec's `InvalidInput`. -/
  | invalidInput
  /-- `"Invalid encrypted text format. Expected 'iv:encryptedText'."` —
  the spec's `MalformedToken`. -/
  | malformedToken
  /-- `createDecipheriv` rejecting an IV that is not 16 bytes long. -/
  | invalidIV
  /-- The cipher failing (`bad decrypt`, wrong key / corrupt data) — the
  spec's `DecryptionFailed`. -/
  | decryptionFailed
  /-- `"Encrypted file is invalid: Secret key not found."` — the spec's
  `InvalidFormat`. -/
  | invalidFormat
  /-- `"Secret key is required for encryption."` -/
  | secretKeyRequired
  /-- `"File ... is empty."` -/
  | fileEmpty
  /-- CLI: `"Secret key is not set. Use set-key to set it first."` -/
  | keyNotSet
  /-- CLI: `"Current secret key is incorrect."` -/
  | wrongCurrentKey
  /-- CLI: `"New secret key cannot be empty."` -/
  | emptyNewKey
  deriving DecidableEq

deriving instance DecidableEq for Except

/-- `deriveKeyFromPassphrase` (secure-env.js lines 15-20): empty
passphrase throws, otherwise `crypto.scryptSync(passphrase, salt,
keyLength)`. -/
def deriveKeyFromPassphrase (passphrase : Str) : Except Err KeyM :=
  if passphrase.isEmpty then .error .invalidInput
  else .ok (.derived passphrase salt keyLength)

/-- Ciphertext body: the derived key's symbolic bytes and the padded
plaintext, hex-encoded.  Models the AES-256-CBC ciphertext (hex) as an
ideal keyed invertible encoding. -/
def bodyEnc (flatKey : Str) (text : Str) : Str :=
  strToHex flatKey ++ sepChunk ++ strToHex text

/-- Inverse of `bodyEnc`: recover the key-binding part and the plaintext
from a ciphertext body, or fail (garbage input behaves like a cipher
failure). -/
def bodyDecode : Str → Option (Str × Str)
  | a :: b :: c :: d :: e :: f :: rest =>
    if [a, b, c, d, e, f] = sepChunk then
      (hexToStr rest).map (fun t => (([] : Str), t))
    else
      match bodyDecode rest with
      | some (ks, t) => some (Char.ofNat (hexLEToNat [a, b, c, d, e, f]) :: ks, t)
      | none => none
  | _ => none

/-- `encryptString` (secure-env.js lines 28-38): require text and key
truthy, derive the key with scrypt, draw a random 16-byte IV (`iv`,
supplied externally), and return `hex(iv) + ":" + hex(ciphertext)`. -/
def encryptString (text : Str) (secretKey : KeyM) (iv : Nat) : Except Err Str :=
  if text.isEmpty || keyFalsy secretKey then .error .invalidInput
  else .ok (natToHexLE 32 iv ++ ':' :: bodyEnc (deriveFlat secretKey) text)

/-- JS `String.prototype.split(sep)` for a one-character separator:
splits on every occurrence; `"".split(sep) == [""]`. -/
def jsSplit (sep : Char) : Str → List Str
  | [] => [[]]
  | c :: rest =>
    if c = sep then [] :: jsSplit sep rest
    else
      match jsSplit sep rest with
      | p :: ps => (c :: p) :: ps
      | [] => [[c]]

/-- Whitespace stripped by JS `String.prototype.trim` (the ASCII part,
which is all the source ever meets). -/
def isJsWs (c : Char) : Bool :=
  c = ' ' || c = '\t' || c = '\n' || c = '\r' || c = '\x0b' || c = '\x0c'

/-- JS `String.prototype.trim`. -/
def jsTrim (l : Str) : Str :=
  ((l.dropWhile isJsWs).reverse.dropWhile isJsWs).reverse

/-- `decryptString` (secure-env.js lines 46-61), step by step:
required-argument check; `split(":")` (on every colon) destructured into
its first two elements, both of which must be truthy; scrypt key
derivation; hex-decoding of the IV, which `createDecipheriv` requires to
be exactly 16 bytes; then the cipher, which fails (`bad decrypt`) unless
the ciphertext was produced under the same derived key. -/
def decryptString (encryptedText : Str) (secretKey : KeyM) : Except Err Str :=
  if encryptedText.isEmpty || keyFalsy secretKey then .error .invalidInput
  else
    let parts := jsSplit ':' encryptedText
    match parts.get? 0, parts.get? 1 with
    | some ivHex, some encrypted =>
      if ivHex.isEmpty || encrypted.isEmpty then .error .malformedToken
      else if hexPairCount ivHex ≠ 16 then .error .invalidIV
      else
        match bodyDecode encrypted with
        | some (flat, text) =>
          if flat = deriveFlat secretKey then .ok text else .error .decryptionFailed
        | none => .error .decryptionFailed
    | _, _ => .error .malformedToken

/-- Characters the JS regex `.` does not match (line terminators). -/
def isLineTerm (c : Char) : Bool :=
  c = '\n' || c = '\r' || c = '\u2028' || c = '\u2029'

/-- The regex match `content.match(/ENV_SECURE_KEY=(.+)/)`, returning the
capture group: the engine scans left to right for the first position
where the whole pattern matches, i.e. the first occurrence of the label
followed by at least one non-line-terminator character; the greedy `(.+)`
captures the maximal such run.  Occurrences of the label with nothing
after them on the line do not match and are skipped. -/
def findKeyMatch : Str → Option Str
  | [] => none
  | c :: t =>
    if label.isPrefixOf (c :: t) then
      let rem := ((c :: t).drop label.length).takeWhile (fun x => !isLineTerm x)
      if rem.isEmpty then findKeyMatch t else some rem
    else findKeyMatch t

/-- `getSecretKey` (secure-env.js lines 68-82) over the contents of the
`.env` file (`none` models a missing file): regex-extract the reserved
label's value anywhere in the text and trim it; `null` when the file is
absent or the pattern does not match. -/
def getSecretKey : Option Str → Option Str
  | none => none
  | some content => (findKeyMatch content).map jsTrim

/-- The passthrough test of the line loops:
`line.trim() === "" || line.startsWith("#")`. -/
def passthroughLine (l : Str) : Bool :=
  (jsTrim l).isEmpty || "#".data.isPrefixOf l

/-- The `lines.forEach` loop of `encryptEnv` (secure-env.js lines
115-126): blank and comment lines are pushed unchanged, any other line is
encrypted with the secret key.  `i` indexes the external IV sequence;
each `encryptString` call draws the next random IV. -/
def encryptLinesLoop (secret : Str) (ivs : Nat → Nat) : Nat → List Str → Except Err (List Str)
  | _, [] => .ok []
  | i, l :: ls =>
    if passthroughLine l then
      match encryptLinesLoop secret ivs i ls with
      | .ok rest => .ok (l :: rest)
      | .error e => .error e
    else
      match encryptString l (.raw secret) (ivs i) with
      | .ok tok =>
        match encryptLinesLoop secret ivs (i + 1) ls with
        | .ok rest => .ok (tok :: rest)
        | .error e => .error e
      | .error e => .error e

/-- The `lines.slice(1).map` loop of `decryptEnv` (secure-env.js lines
177-182): blank and comment lines pass through, any other line is
decrypted with the recovered secret key. -/
def decryptLinesLoop (secret : Str) : List Str → Except Err (List Str)
  | [] => .ok []
  | l :: ls =>
    if passthroughLine l then
      match decryptLinesLoop secret ls with
      | .ok rest => .ok (l :: rest)
      | .error e => .error e
    else
      match decryptString l (.raw secret) with
      | .ok p =>
        match decryptLinesLoop secret ls with
        | .ok rest => .ok (p :: rest)
        | .error e => .error e
      | .error e => .error e

/-- The line-level body of `encryptEnv` (secure-env.js lines 90-139),
i.e. the spec's `encryptFile(plainLines, secretKey, passphrase)`: check
the secret key is truthy (`!secretKey` throws `"Secret key is required
for encryption."`), derive the wrapping key from the passphrase, wrap
`ENV_SECURE_KEY=<secret>` as the `SECRET_KEY=` header, then run the line
loop. -/
def encryptEnvLines (lines : List Str) (secret : Str) (passphrase : Str)
    (ivs : Nat → Nat) : Except Err (List Str) :=
  if secret.isEmpty then .error .secretKeyRequired
  else
    match deriveKeyFromPassphrase passphrase with
    | .error e => .error e
    | .ok dk =>
      match encryptString (label ++ secret) dk (ivs 0) with
      | .error e => .error e
      | .ok hdrTok =>
        match encryptLinesLoop secret ivs 1 lines with
        | .error e => .error e
        | .ok rest => .ok (("SECRET_KEY=".data ++ hdrTok) :: rest)

/-- The line-level body of `decryptEnv` (secure-env.js lines 148-192),
i.e. the spec's `decryptFile(encLines, passphrase)`: the first line must
start with `SECRET_KEY=`; the wrapped key is `split("=")[1]`; it is
opened with the passphrase-derived key and must match
`/ENV_SECURE_KEY=(.+)/`; the remaining lines are decrypted with the
recovered secret key. -/
def decryptEnvLines (lines : List Str) (passphrase : Str) : Except Err (List Str) :=
  match lines with
  | [] => .error .invalidFormat
  | l0 :: rest =>
    if "SECRET_KEY=".data.isPrefixOf l0 then
      match deriveKeyFromPassphrase passphrase with
      | .error e => .error e
      | .ok dk =>
        match decryptString (((jsSplit '=' l0).get? 1).getD []) dk with
        | .error e => .error e
        | .ok decLine =>
          match findKeyMatch decLine with
          | none => .error .invalidFormat
          | some secret => decryptLinesLoop secret rest
    else .error .invalidFormat

/-- Whole-file `encryptEnv` as wired up by `bin/env-secure.js encrypt`
(the input file is the same `.env` file that `getSecretKey` reads):
retrieve the secret key (throwing `"Secret key is required for
encryption."` when it is `null` or empty), reject an empty file, split on
newlines, and run the line-level encryption. -/
def encryptEnv (content : Str) (passphrase : Str) (ivs : Nat → Nat) :
    Except Err (List Str) :=
  match getSecretKey (some content) with
  | none => .error .secretKeyRequired
  | some secret =>
    if secret.isEmpty then .error .secretKeyRequired
    else if content.isEmpty then .error .fileEmpty
    else encryptEnvLines (jsSplit '\n' content) secret passphrase ivs

/-- `isSecretKeySet` (bin/env-secure.js lines 16-22):
`/ENV_SECURE_KEY=/.test(envContent)` — the label occurring anywhere. -/
def strHasSub (pat : Str) : Str → Bool
  | [] => pat.isEmpty
  | c :: t => pat.isPrefixOf (c :: t) || strHasSub pat t

def isSecretKeySet : Option Str → Bool
  | none => false
  | some content => strHasSub label content

/-- `updateSecretKey` (bin/env-secure.js lines 28-30):
`fs.writeFileSync(envFilePath, "ENV_SECURE_KEY=" + newSecretKey + "\n")`
— the new contents of the whole `.env` file. -/
def updateSecretKey (newSecretKey : Str) : Str :=
  label ++ newSecretKey ++ ['\n']

/-- The `rotate-key` command action (bin/env-secure.js lines 126-157)
over the `.env` file state: require the key to be set, require the
entered current key to equal `getSecretKey()` (a string is never equal to
`null`), require a non-empty new key, then `updateSecretKey`.  Returns
the new file contents. -/
def rotateKeyAction (file : Option Str) (current newKey : Str) : Except Err Str :=
  if !isSecretKeySet file then .error .keyNotSet
  else
    match getSecretKey file with
    | some cur =>
      if current ≠ cur then .error .wrongCurrentKey
      else if newKey.isEmpty then .error .emptyNewKey
      else .ok (updateSecretKey newKey)
    | none => .error .wrongCurrentKey

/-- Following the spec's words for C7: "splits `token` on the first
`:`" — the part before the first colon and everything after it. -/
def specSplitFirstColon : Str → Option (Str × Str)
  | [] => none
  | c :: t =>
    if c = ':' then some ([], t)
    else (specSplitFirstColon t).map (fun pr => (c :: pr.1, pr.2))

/-- Following the spec's words for C7: a valid hex string (every
character a hex digit). -/
def specIsHex (l : Str) : Bool := l.all isHexDigit

/-- Following the claim's words for C10: the remainder of the first
occurrence of `ENV_SECURE_KEY=` up to end of line, trimmed; `none` when
no occurrence exists. -/
def claimFirstLabelRemainder : Str → Option Str
  | [] => none
  | c :: t =>
    if label.isPrefixOf (c :: t) then
      some (jsTrim (((c :: t).drop label.length).takeWhile (fun x => !isLineTerm x)))
    else claimFirstLabelRemainder t

/-- The amended C10 behaviour, phrased positionally: the first position
`i` of the content at which the label occurs followed by at least one
non-line-terminator character; the value is that remainder, trimmed. -/
def amendedSpecGetSecret (content : Str) : Option Str :=
  ((List.range content.length).find? (fun i =>
      label.isPrefixOf (content.drop i) &&
      !((content.drop (i + label.length)).takeWhile (fun x => !isLineTerm x)).isEmpty)).map
    (fun i => jsTrim ((content.drop (i + label.length)).takeWhile (fun x => !isLineTerm x)))

/-- Well-formedness of an input line per C1: a single line (no newline),
and one of blank / comment / `KEY=VALUE` data. -/
def wfLine (l : Str) : Prop :=
  '\n' ∉ l ∧ ((jsTrim l).isEmpty = true ∨ l.head? = some '#' ∨ '=' ∈ l)

instance (l : Str) : Decidable (wfLine l) := by unfold wfLine; infer_instance

/-- A data line: one the encryption loop does not pass through. -/
def isDataLine (l : Str) : Bool := !passthroughLine l

/-- A single-line string value, as the secret key always is when it comes
out of a regex capture of `(.+)` (no line terminators), non-empty. -/
def validSecret (s : Str) : Prop :=
  s ≠ [] ∧ ∀ c ∈ s, isLineTerm c = false

instance (s : Str) : Decidable (validSecret s) := by unfold validSecret; infer_instance

/-! ### Helper lemmas: hex digits and the ideal-cipher encoding -/

theorem hexDigitVal_hexDigitChar {m : Nat} (h : m < 16) :
    hexDigitVal (hexDigitChar m) = m := by
  interval_cases m <;> rfl

theorem isHexDigit_hexDigitChar (m : Nat) : isHexDigit (hexDigitChar m) = true := by
  unfold hexDigitChar
  split <;> decide

theorem hexDigitChar_not_ws (m : Nat) : isJsWs (hexDigitChar m) = false := by
  unfold hexDigitChar
  split <;> decide

theorem hexDigitChar_ne_hash (m : Nat) : hexDigitChar m ≠ '#' := by
  unfold hexDigitChar
  split <;> decide

theorem hexDigitChar_ne_colon (m : Nat) : hexDigitChar m ≠ ':' := by
  unfold hexDigitChar
  split <;> decide

theorem hexDigitChar_ne_eq (m : Nat) : hexDigitChar m ≠ '=' := by
  unfold hexDigitChar
  split <;> decide

theorem char_toNat_lt (c : Char) : c.toNat < 1114112 := by
  rcases c.valid with h | ⟨_, h2⟩
  · exact Nat.lt_trans h (by norm_num)
  · exact h2

theorem hexLEToNat_charToHex (c : Char) : hexLEToNat (charToHex c) = c.toNat := by
  have hb := char_toNat_lt c
  simp only [charToHex, hexLEToNat,
    hexDigitVal_hexDigitChar (Nat.mod_lt _ (by norm_num))]
  omega

theorem charToHex_ne_sepChunk (c : Char) : charToHex c ≠ sepChunk := by
  intro h
  have h1 : hexLEToNat (charToHex c) = hexLEToNat sepChunk := by rw [h]
  rw [hexLEToNat_charToHex] at h1
  have : hexLEToNat sepChunk = 16777215 := by decide
  have := char_toNat_lt c
  omega

theorem ofNat_hexLEToNat_chunk (c : Char) :
    Char.ofNat (hexLEToNat
      [hexDigitChar (c.toNat % 16), hexDigitChar (c.toNat / 16 % 16),
       hexDigitChar (c.toNat / 256 % 16), hexDigitChar (c.toNat / 4096 % 16),
       hexDigitChar (c.toNat / 65536 % 16), hexDigitChar (c.toNat / 1048576 % 16)]) = c := by
  rw [show [hexDigitChar (c.toNat % 16), hexDigitChar (c.toNat / 16 % 16),
      hexDigitChar (c.toNat / 256 % 16), hexDigitChar (c.toNat / 4096 % 16),
      hexDigitChar (c.toNat / 65536 % 16), hexDigitChar (c.toNat / 1048576 % 16)]
      = charToHex c from rfl, hexLEToNat_charToHex, Char.ofNat_toNat]

theorem chunk_ne_sepChunk (c : Char) :
    ¬([hexDigitChar (c.toNat % 16), hexDigitChar (c.toNat / 16 % 16),
       hexDigitChar (c.toNat / 256 % 16), hexDigitChar (c.toNat / 4096 % 16),
       hexDigitChar (c.toNat / 65536 % 16), hexDigitChar (c.toNat / 1048576 % 16)]
      = sepChunk) := by
  rw [show [hexDigitChar (c.toNat % 16), hexDigitChar (c.toNat / 16 % 16),
      hexDigitChar (c.toNat / 256 % 16), hexDigitChar (c.toNat / 4096 % 16),
      hexDigitChar (c.toNat / 65536 % 16), hexDigitChar (c.toNat / 1048576 % 16)]
      = charToHex c from rfl]
  exact charToHex_ne_sepChunk c

theorem hexToStr_strToHex (l : Str) : hexToStr (strToHex l) = some l := by
  induction l with
  | nil => rfl
  | cons c t ih =>
    show hexToStr (charToHex c ++ strToHex t) = some (c :: t)
    simp only [charToHex, List.cons_append, List.nil_append, List.append_eq,
      hexToStr, ih, Option.map_some', ofNat_hexLEToNat_chunk]

theorem bodyDecode_bodyEnc (flat text : Str) :
    bodyDecode (bodyEnc flat text) = some (flat, text) := by
  induction flat with
  | nil =>
    show bodyDecode (strToHex [] ++ (sepChunk ++ strToHex text)) = _
    simp only [strToHex, sepChunk, List.cons_append, List.nil_append,
      List.append_eq, bodyDecode, if_true, hexToStr_strToHex, Option.map_some']
  | cons c t ih =>
    rw [show bodyEnc (c :: t) text
        = charToHex c ++ (strToHex t ++ (sepChunk ++ strToHex text)) by
      simp [bodyEnc, strToHex]]
    rw [show strToHex t ++ (sepChunk ++ strToHex text) = bodyEnc t text by simp [bodyEnc]]
    simp only [charToHex, List.cons_append, List.nil_append, List.append_eq,
      bodyDecode, chunk_ne_sepChunk c, if_false, ih, ofNat_hexLEToNat_chunk]

/-! ### Helper lemmas: splitting, trimming, token shape -/

theorem jsSplit_ne_nil (sep : Char) (l : Str) : jsSplit sep l ≠ [] := by
  induction l with
  | nil => simp [jsSplit]
  | cons c t ih =>
    simp only [jsSplit]
    split
    · simp
    · split
      · simp
      · simp

theorem jsSplit_no_sep {sep : Char} {l : Str} (h : ∀ c ∈ l, c ≠ sep) :
    jsSplit sep l = [l] := by
  induction l with
  | nil => rfl
  | cons c t ih =>
    simp only [jsSplit, if_neg (h c (by simp))]
    rw [ih (fun x hx => h x (by simp [hx]))]

theorem jsSplit_first {sep : Char} {xs : Str} (ys : Str) (h : ∀ c ∈ xs, c ≠ sep) :
    jsSplit sep (xs ++ sep :: ys) = xs :: jsSplit sep ys := by
  induction xs with
  | nil => simp [jsSplit]
  | cons c t ih =>
    simp only [List.cons_append, jsSplit, if_neg (h c (by simp)), List.append_eq]
    rw [ih (fun x hx => h x (by simp [hx]))]

theorem length_natToHexLE (w n : Nat) : (natToHexLE w n).length = w := by
  induction w generalizing n with
  | zero => rfl
  | succ w ih => simp [natToHexLE, ih]

theorem mem_natToHexLE {w n : Nat} {x : Char} (h : x ∈ natToHexLE w n) :
    ∃ m, x = hexDigitChar m := by
  induction w generalizing n with
  | zero => simp [natToHexLE] at h
  | succ w ih =>
    simp only [natToHexLE, List.mem_cons] at h
    rcases h with h | h
    · exact ⟨n % 16, h⟩
    · exact ih h

theorem mem_strToHex {l : Str} {x : Char} (h : x ∈ strToHex l) :
    ∃ m, x = hexDigitChar m := by
  induction l with
  | nil => simp [strToHex] at h
  | cons c t ih =>
    simp only [strToHex, List.mem_append] at h
    rcases h with h | h
    · simp only [charToHex, List.mem_cons] at h
      rcases h with h | h | h | h | h | h
      · exact ⟨_, h⟩
      · exact ⟨_, h⟩
      · exact ⟨_, h⟩
      · exact ⟨_, h⟩
      · exact ⟨_, h⟩
      · simp at h; exact ⟨_, h⟩
    · exact ih h

theorem mem_bodyEnc {flat text : Str} {x : Char} (h : x ∈ bodyEnc flat text) :
    ∃ m, x = hexDigitChar m := by
  simp only [bodyEnc, List.mem_append] at h
  rcases h with (h | h) | h
  · exact mem_strToHex h
  · simp only [sepChunk, List.mem_cons] at h
    have : x = 'f' := by tauto
    exact ⟨15, by simp [this, hexDigitChar]⟩
  · exact mem_strToHex h

theorem hexPairCount_natToHexLE (k : Nat) : ∀ n, hexPairCount (natToHexLE (2 * k) n) = k := by
  induction k with
  | zero => intro n; rfl
  | succ k ih =>
    intro n
    have h2 : 2 * (k + 1) = (2 * k) + 1 + 1 := by ring
    rw [h2]
    show hexPairCount (hexDigitChar (n % 16) :: hexDigitChar (n / 16 % 16)
      :: natToHexLE (2 * k) (n / 16 / 16)) = k + 1
    simp only [hexPairCount, isHexDigit_hexDigitChar, Bool.and_self, if_true, ih]

theorem dropWhile_eq_self_of_not {p : Char → Bool} {l : Str}
    (h : ∀ x ∈ l, p x = false) : l.dropWhile p = l := by
  induction l with
  | nil => rfl
  | cons a t _ => simp [List.dropWhile, h a (by simp)]

theorem jsTrim_eq_self {l : Str} (h : ∀ x ∈ l, isJsWs x = false) : jsTrim l = l := by
  unfold jsTrim
  rw [dropWhile_eq_self_of_not h,
    dropWhile_eq_self_of_not (fun x hx => h x (List.mem_reverse.mp hx)),
    List.reverse_reverse]

theorem takeWhile_eq_self_of_all {p : Char → Bool} {l : Str}
    (h : ∀ x ∈ l, p x = true) : l.takeWhile p = l := by
  induction l with
  | nil => rfl
  | cons a t ih =>
    simp only [List.takeWhile, h a (by simp)]
    rw [ih (fun x hx => h x (by simp [hx]))]

/-- The characters of a ciphertext token are hex digits and `:`. -/
theorem token_chars {k : KeyM} {text : Str} {iv : Nat} {x : Char}
    (h : x ∈ natToHexLE 32 iv ++ ':' :: bodyEnc (deriveFlat k) text) :
    x = ':' ∨ ∃ m, x = hexDigitChar m := by
  simp only [List.mem_append, List.mem_cons] at h
  rcases h with h | h | h
  · exact .inr (mem_natToHexLE h)
  · exact .inl h
  · exact .inr (mem_bodyEnc h)

/-- A ciphertext token is never mistaken for a blank or comment line. -/
theorem passthroughLine_token (k : KeyM) (text : Str) (iv : Nat) :
    passthroughLine (natToHexLE 32 iv ++ ':' :: bodyEnc (deriveFlat k) text) = false := by
  have hws : ∀ x ∈ natToHexLE 32 iv ++ ':' :: bodyEnc (deriveFlat k) text,
      isJsWs x = false := by
    intro x hx
    rcases token_chars hx with h | ⟨m, h⟩
    · simp [h, isJsWs]
    · simp [h, hexDigitChar_not_ws]
  have hne : natToHexLE 32 iv ++ ':' :: bodyEnc (deriveFlat k) text
      = hexDigitChar (iv % 16) :: (natToHexLE 31 (iv / 16) ++ ':' :: bodyEnc (deriveFlat k) text) := rfl
  unfold passthroughLine
  rw [jsTrim_eq_self hws, hne]
  have h1 : (hexDigitChar (iv % 16) :: (natToHexLE 31 (iv / 16) ++ ':' :: bodyEnc (deriveFlat k) text)).isEmpty = false := rfl
  have h2 : "#".data.isPrefixOf (hexDigitChar (iv % 16) :: (natToHexLE 31 (iv / 16) ++ ':' :: bodyEnc (deriveFlat k) text)) = false := by
    show (['#'].isPrefixOf _) = false
    simp only [List.isPrefixOf, Bool.and_eq_false_iff]
    left
    simp only [beq_eq_false_iff_ne, ne_eq]
    exact fun hh => hexDigitChar_ne_hash (iv % 16) hh.symm
  rw [h1, h2]
  rfl

/-! ### Helper lemmas: the line cipher -/

theorem keyFalsy_eq_false {k : KeyM} (h : k.valid = true) : keyFalsy k = false := by
  cases k with
  | raw s => simpa [KeyM.valid, keyFalsy] using h
  | derived p sl n => rfl

theorem encryptString_ok {text : Str} {k : KeyM} (iv : Nat)
    (ht : text ≠ []) (hk : k.valid = true) :
    encryptString text k iv
      = .ok (natToHexLE 32 iv ++ ':' :: bodyEnc (deriveFlat k) text) := by
  unfold encryptString
  rw [keyFalsy_eq_false hk]
  cases text with
  | nil => exact absurd rfl ht
  | cons c t => rfl

theorem token_ne_nil (iv : Nat) (body : Str) :
    natToHexLE 32 iv ++ ':' :: body ≠ [] := by
  show hexDigitChar (iv % 16) :: (natToHexLE 31 (iv / 16) ++ ':' :: body) ≠ []
  simp

theorem jsSplit_token (iv : Nat) (flat text : Str) :
    jsSplit ':' (natToHexLE 32 iv ++ ':' :: bodyEnc flat text)
      = [natToHexLE 32 iv, bodyEnc flat text] := by
  rw [jsSplit_first (bodyEnc flat text) (fun c hc => by
    obtain ⟨m, rfl⟩ := mem_natToHexLE hc
    exact hexDigitChar_ne_colon m)]
  rw [jsSplit_no_sep (fun c hc => by
    obtain ⟨m, rfl⟩ := mem_bodyEnc hc
    exact hexDigitChar_ne_colon m)]

/-- Opening a sealed token: parsing always reaches the cipher, and the
result depends only on whether the derived keys match. -/
theorem decryptString_token (iv : Nat) (flat text : Str) (k : KeyM)
    (hk : k.valid = true) :
    decryptString (natToHexLE 32 iv ++ ':' :: bodyEnc flat text) k
      = if flat = deriveFlat k then .ok text else .error .decryptionFailed := by
  have hcnt : hexPairCount (natToHexLE 32 iv) = 16 := by
    have h := hexPairCount_natToHexLE 16 iv
    norm_num at h
    exact h
  have hne : (natToHexLE 32 iv ++ ':' :: bodyEnc flat text).isEmpty = false := by
    cases h : natToHexLE 32 iv ++ ':' :: bodyEnc flat text with
    | nil => exact absurd h (token_ne_nil iv _)
    | cons a t => rfl
  have hiv : (natToHexLE 32 iv).isEmpty = false := by
    have hl := length_natToHexLE 32 iv
    cases h : natToHexLE 32 iv with
    | nil => rw [h] at hl; simp at hl
    | cons a t => rfl
  have hbody : (bodyEnc flat text).isEmpty = false := by
    cases flat with
    | nil => rfl
    | cons c t => rfl
  simp only [decryptString, keyFalsy_eq_false hk, hne, Bool.or_false,
    Bool.false_eq_true, if_false, jsSplit_token, List.get?_cons_zero,
    List.get?_cons_succ, hiv, hbody, Bool.or_self, hcnt, bodyDecode_bodyEnc,
    reduceCtorEq, reduceIte]
  rw [if_neg (by simp)]

theorem deriveFlat_derived_ne {p1 p2 : Str} (h : p1 ≠ p2) :
    deriveFlat (.derived p1 salt keyLength) ≠ deriveFlat (.derived p2 salt keyLength) := by
  simp only [deriveFlat, ne_eq, List.cons.injEq, true_and]
  intro hh
  exact h (List.append_cancel_left hh)

/-- Sealing then opening under the same key returns the plaintext. -/
theorem open_seal {text : Str} {k : KeyM} (iv : Nat)
    (ht : text ≠ []) (hk : k.valid = true) :
    ∃ tok, encryptString text k iv = .ok tok ∧ decryptString tok k = .ok text := by
  refine ⟨_, encryptString_ok iv ht hk, ?_⟩
  rw [decryptString_token iv _ text k hk, if_pos rfl]

/-- Opening under a key whose derivation differs fails with bad decrypt. -/
theorem open_seal_wrong_key {text : Str} {k k' : KeyM} (iv : Nat)
    (ht : text ≠ []) (hk : k.valid = true) (hk' : k'.valid = true)
    (hne : deriveFlat k ≠ deriveFlat k') :
    ∃ tok, encryptString text k iv = .ok tok
      ∧ decryptString tok k' = .error .decryptionFailed := by
  refine ⟨_, encryptString_ok iv ht hk, ?_⟩
  rw [decryptString_token iv _ text k' hk', if_neg hne]

/-! ### Helper lemmas: file codec -/

theorem isPrefixOf_append_self (p l : Str) : p.isPrefixOf (p ++ l) = true := by
  induction p with
  | nil => simp [List.isPrefixOf]
  | cons c t ih => simp [List.isPrefixOf, ih]

theorem passthroughLine_nil : passthroughLine [] = true := rfl

theorem ne_nil_of_not_passthrough {l : Str} (h : passthroughLine l = false) : l ≠ [] := by
  intro hl
  rw [hl, passthroughLine_nil] at h
  cases h

/-- Totality and round trip of the two line loops: with a non-empty
secret key, encryption always succeeds and decryption restores every
line. -/
theorem encryptLinesLoop_roundtrip (secret : Str) (hs : secret ≠ [])
    (ivs : Nat → Nat) :
    ∀ (lines : List Str) (i : Nat), ∃ out,
      encryptLinesLoop secret ivs i lines = .ok out
      ∧ decryptLinesLoop secret out = .ok lines := by
  intro lines
  induction lines with
  | nil => exact fun i => ⟨[], rfl, rfl⟩
  | cons l ls ih =>
    intro i
    by_cases hp : passthroughLine l = true
    · obtain ⟨out, h1, h2⟩ := ih i
      refine ⟨l :: out, ?_, ?_⟩
      · simp only [encryptLinesLoop, hp, if_true, h1]
      · simp only [decryptLinesLoop, hp, if_true, h2]
    · rw [Bool.not_eq_true] at hp
      obtain ⟨out, h1, h2⟩ := ih (i + 1)
      have hraw : (KeyM.raw secret).valid = true := by
        simp [KeyM.valid, List.isEmpty_iff, hs]
      have henc := @encryptString_ok l (.raw secret) (ivs i)
        (ne_nil_of_not_passthrough hp) hraw
      refine ⟨(natToHexLE 32 (ivs i) ++ ':' :: bodyEnc (deriveFlat (.raw secret)) l) :: out, ?_, ?_⟩
      · simp only [encryptLinesLoop, hp, Bool.false_eq_true, if_false, henc, h1]
      · simp only [decryptLinesLoop, passthroughLine_token, Bool.false_eq_true,
          if_false, decryptString_token _ _ _ _ hraw, if_pos rfl, if_true, h2]

/-- Every line the encryption loop emits is either a passthrough copy of
an input line or a ciphertext token of a non-passthrough input line. -/
theorem encryptLinesLoop_shape (secret : Str) (ivs : Nat → Nat) :
    ∀ (lines : List Str) (i : Nat) (out : List Str),
      encryptLinesLoop secret ivs i lines = .ok out →
      ∀ l ∈ out, (passthroughLine l = true ∧ l ∈ lines)
        ∨ ∃ src iv, src ∈ lines ∧ passthroughLine src = false
            ∧ encryptString src (.raw secret) iv = .ok l := by
  intro lines
  induction lines with
  | nil =>
    intro i out h l hl
    cases h
    simp at hl
  | cons x xs ih =>
    intro i out h l hl
    by_cases hp : passthroughLine x = true
    · rw [show encryptLinesLoop secret ivs i (x :: xs)
          = match encryptLinesLoop secret ivs i xs with
            | .ok rest => .ok (x :: rest)
            | .error e => .error e by simp [encryptLinesLoop, hp]] at h
      cases hrec : encryptLinesLoop secret ivs i xs with
      | error e => rw [hrec] at h; cases h
      | ok rest =>
        rw [hrec] at h
        cases h
        rcases List.mem_cons.mp hl with rfl | hmem
        · exact .inl ⟨hp, by simp⟩
        · rcases ih i rest hrec l hmem with ⟨h1, h2⟩ | ⟨src, iv, h1, h2, h3⟩
          · exact .inl ⟨h1, by simp [h2]⟩
          · exact .inr ⟨src, iv, by simp [h1], h2, h3⟩
    · rw [Bool.not_eq_true] at hp
      rw [show encryptLinesLoop secret ivs i (x :: xs)
          = match encryptString x (.raw secret) (ivs i) with
            | .ok tok =>
              match encryptLinesLoop secret ivs (i + 1) xs with
              | .ok rest => .ok (tok :: rest)
              | .error e => .error e
            | .error e => .error e by simp [encryptLinesLoop, hp]] at h
      cases henc : encryptString x (.raw secret) (ivs i) with
      | error e => rw [henc] at h; cases h
      | ok tok =>
        rw [henc] at h
        cases hrec : encryptLinesLoop secret ivs (i + 1) xs with
        | error e => rw [hrec] at h; cases h
        | ok rest =>
          rw [hrec] at h
          cases h
          rcases List.mem_cons.mp hl with rfl | hmem
          · exact .inr ⟨x, ivs i, by simp, hp, henc⟩
          · rcases ih (i + 1) rest hrec l hmem with ⟨h1, h2⟩ | ⟨src, iv, h1, h2, h3⟩
            · exact .inl ⟨h1, by simp [h2]⟩
            · exact .inr ⟨src, iv, by simp [h1], h2, h3⟩

/-- The regex `/ENV_SECURE_KEY=(.+)/` on `"ENV_SECURE_KEY=" + s` for a
non-empty single-line `s` captures exactly `s`. -/
theorem findKeyMatch_label_append {s : Str} (hs : validSecret s) :
    findKeyMatch (label ++ s) = some s := by
  obtain ⟨hne, hterm⟩ := hs
  have hcons : label ++ s = 'E' :: ("NV_SECURE_KEY=".data ++ s) := rfl
  rw [hcons]
  show findKeyMatch ('E' :: ("NV_SECURE_KEY=".data ++ s)) = some s
  rw [show findKeyMatch ('E' :: ("NV_SECURE_KEY=".data ++ s))
      = if label.isPrefixOf ('E' :: ("NV_SECURE_KEY=".data ++ s)) then
          (if ((('E' :: ("NV_SECURE_KEY=".data ++ s)).drop label.length).takeWhile
              (fun x => !isLineTerm x)).isEmpty
           then findKeyMatch ("NV_SECURE_KEY=".data ++ s)
           else some ((('E' :: ("NV_SECURE_KEY=".data ++ s)).drop label.length).takeWhile
              (fun x => !isLineTerm x)))
        else findKeyMatch ("NV_SECURE_KEY=".data ++ s) by rfl]
  rw [if_pos (by rw [← hcons]; exact isPrefixOf_append_self label s)]
  have hdrop : ('E' :: ("NV_SECURE_KEY=".data ++ s)).drop label.length = s := by
    rw [← hcons]
    exact List.drop_left label s
  rw [hdrop, takeWhile_eq_self_of_all (fun x hx => by simp [hterm x hx])]
  rw [if_neg (by simpa [List.isEmpty_iff] using hne)]

/-- `"SECRET_KEY=" ++ tok` splits at the first `=` into `"SECRET_KEY"`
and `tok` when the token contains no `=` (hex digits and `:` only). -/
theorem jsSplit_header (tok : Str) (htok : ∀ c ∈ tok, c ≠ '=') :
    jsSplit '=' ("SECRET_KEY=".data ++ tok) = ["SECRET_KEY".data, tok] := by
  rw [show "SECRET_KEY=".data ++ tok = "SECRET_KEY".data ++ '=' :: tok from rfl]
  rw [jsSplit_first tok (by decide)]
  rw [jsSplit_no_sep htok]

theorem token_ne_eqsign {k : KeyM} {text : Str} :
    ∀ c ∈ natToHexLE 32 0 ++ ':' :: bodyEnc (deriveFlat k) text, c ≠ '=' := by
  intro c hc
  rcases token_chars hc with rfl | ⟨m, rfl⟩
  · decide
  · exact hexDigitChar_ne_eq m

theorem token_ne_eqsign' {k : KeyM} {text : Str} (iv : Nat) :
    ∀ c ∈ natToHexLE 32 iv ++ ':' :: bodyEnc (deriveFlat k) text, c ≠ '=' := by
  intro c hc
  rcases token_chars hc with rfl | ⟨m, rfl⟩
  · decide
  · exact hexDigitChar_ne_eq m

/-- Unfolding `decryptEnvLines` on a well-formed header line. -/
theorem decryptEnvLines_cons_header (tok : Str) (rest : List Str) (pass : Str)
    (htok : ∀ c ∈ tok, c ≠ '=') (hp : pass ≠ []) :
    decryptEnvLines (("SECRET_KEY=".data ++ tok) :: rest) pass
      = match decryptString tok (.derived pass salt keyLength) with
        | .error e => .error e
        | .ok decLine =>
          match findKeyMatch decLine with
          | none => .error .invalidFormat
          | some secret => decryptLinesLoop secret rest := by
  show (if "SECRET_KEY=".data.isPrefixOf ("SECRET_KEY=".data ++ tok) then _
        else Except.error Err.invalidFormat) = _
  rw [if_pos (by rw [isPrefixOf_append_self])]
  rw [show deriveKeyFromPassphrase pass = .ok (.derived pass salt keyLength) by
    unfold deriveKeyFromPassphrase
    rw [if_neg (by simpa [List.isEmpty_iff] using hp)]]
  rw [jsSplit_header tok htok]
  rfl

/-- Whole-file round trip at the line level (the spec's
`decryptFile(encryptFile(lines, secret, pass), pass) == lines`). -/
theorem encryptEnvLines_decryptEnvLines (lines : List Str) (secret pass : Str)
    (ivs : Nat → Nat) (hsec : validSecret secret) (hp : pass ≠ []) :
    ∃ out, encryptEnvLines lines secret pass ivs = .ok out
      ∧ decryptEnvLines out pass = .ok lines := by
  obtain ⟨rest, hloop, hdec⟩ := encryptLinesLoop_roundtrip secret hsec.1 ivs lines 1
  have hdk : deriveKeyFromPassphrase pass = .ok (.derived pass salt keyLength) := by
    unfold deriveKeyFromPassphrase
    rw [if_neg (by simpa [List.isEmpty_iff] using hp)]
  have hhdr := @encryptString_ok (label ++ secret)
    (.derived pass salt keyLength) (ivs 0)
    (by show label ++ secret ≠ []; exact fun h => List.noConfusion h) rfl
  refine ⟨("SECRET_KEY=".data
      ++ (natToHexLE 32 (ivs 0)
          ++ ':' :: bodyEnc (deriveFlat (.derived pass salt keyLength)) (label ++ secret))) :: rest,
    ?_, ?_⟩
  · unfold encryptEnvLines
    rw [if_neg (by simpa [List.isEmpty_iff] using hsec.1)]
    simp only [hdk, hhdr, hloop]
  · rw [decryptEnvLines_cons_header _ _ _ (token_ne_eqsign' (ivs 0)) hp]
    simp only [decryptString_token (ivs 0)
        (deriveFlat (.derived pass salt keyLength)) (label ++ secret)
        (.derived pass salt keyLength) rfl,
      if_pos rfl, if_true, findKeyMatch_label_append hsec]
    exact hdec

/-- Decrypting with a different (non-empty) passphrase: the header token
was sealed under the key derived from `pass`, so opening it under the key
derived from `pass2 ≠ pass` fails with bad decrypt, which aborts
`decryptEnv`. -/
theorem encryptEnvLines_wrong_pass (lines : List Str) (secret pass pass2 : Str)
    (ivs : Nat → Nat) (hs : secret ≠ []) (hp : pass ≠ []) (hp2 : pass2 ≠ [])
    (hne : pass ≠ pass2) :
    ∃ out, encryptEnvLines lines secret pass ivs = .ok out
      ∧ decryptEnvLines out pass2 = .error .decryptionFailed := by
  obtain ⟨rest, hloop, _⟩ := encryptLinesLoop_roundtrip secret hs ivs lines 1
  have hdk : deriveKeyFromPassphrase pass = .ok (.derived pass salt keyLength) := by
    unfold deriveKeyFromPassphrase
    rw [if_neg (by simpa [List.isEmpty_iff] using hp)]
  have hhdr := @encryptString_ok (label ++ secret)
    (.derived pass salt keyLength) (ivs 0)
    (by show label ++ secret ≠ []; exact fun h => List.noConfusion h) rfl
  refine ⟨("SECRET_KEY=".data
      ++ (natToHexLE 32 (ivs 0)
          ++ ':' :: bodyEnc (deriveFlat (.derived pass salt keyLength)) (label ++ secret))) :: rest,
    ?_, ?_⟩
  · unfold encryptEnvLines
    rw [if_neg (by simpa [List.isEmpty_iff] using hs)]
    simp only [hdk, hhdr, hloop]
  · rw [decryptEnvLines_cons_header _ _ _ (token_ne_eqsign' (ivs 0)) hp2]
    simp only [decryptString_token (ivs 0)
        (deriveFlat (.derived pass salt keyLength)) (label ++ secret)
        (.derived pass2 salt keyLength) rfl,
      if_neg (deriveFlat_derived_ne hne)]

/-! ### Claim theorems -/

/-- Claim C1: for every well-formed line sequence (KEY=VALUE data lines,
blank lines, comment lines) containing at least one data line, every
non-empty secret key (a single-line value, as the reserved-label regex
capture always is), every non-empty passphrase, and every sequence of
random IV draws, decrypting the result of `encryptFile` with the same
passphrase reproduces the original lines exactly and in order (blank and
comment lines are passed through and so sit unchanged at their original
relative positions). -/
theorem claim_C1_file_roundtrip (lines : List Str) (secret pass : Str)
    (ivs : Nat → Nat) (hwf : ∀ l ∈ lines, wfLine l)
    (hdata : ∃ l ∈ lines, isDataLine l = true)
    (hsec : validSecret secret) (hp : pass ≠ []) :
    ∃ out, encryptEnvLines lines secret pass ivs = .ok out
      ∧ decryptEnvLines out pass = .ok lines :=
  encryptEnvLines_decryptEnvLines lines secret pass ivs hsec hp

/-- Witness for C1 at the concrete input
`["A=1", "", "#c", "B=2"]`, secret `"s"`, passphrase `"pw"`. -/
theorem claim_C1_file_roundtrip_witness :
    (∀ l ∈ [("A=1").data, ([] : Str), ("#c").data, ("B=2").data], wfLine l)
    ∧ (∃ l ∈ [("A=1").data, ([] : Str), ("#c").data, ("B=2").data], isDataLine l = true)
    ∧ validSecret ("s").data ∧ ("pw").data ≠ []
    ∧ ∃ out, encryptEnvLines [("A=1").data, ([] : Str), ("#c").data, ("B=2").data]
        ("s").data ("pw").data (fun _ => 0) = .ok out
      ∧ decryptEnvLines out ("pw").data
          = .ok [("A=1").data, ([] : Str), ("#c").data, ("B=2").data] :=
  ⟨by decide, by decide, by decide, by decide,
    claim_C1_file_roundtrip _ _ _ _ (by decide) (by decide) (by decide) (by decide)⟩

/-- Claim C5: for every non-empty plaintext and valid key (and any IV
draw), opening the token produced by sealing the plaintext returns it:
`open(seal(p, k), k) == p`. -/
theorem claim_C5_seal_open (p : Str) (k : KeyM) (iv : Nat)
    (hp : p ≠ []) (hk : k.valid = true) :
    ∃ tok, encryptString p k iv = .ok tok ∧ decryptString tok k = .ok p :=
  open_seal iv hp hk

/-- Witness for C5 at plaintext `"hi"`, key `"k"`, IV draw 3. -/
theorem claim_C5_seal_open_witness :
    ("hi").data ≠ [] ∧ (KeyM.raw ("k").data).valid = true
    ∧ ∃ tok, encryptString ("hi").data (.raw ("k").data) 3 = .ok tok
        ∧ decryptString tok (.raw ("k").data) = .ok ("hi").data :=
  ⟨by decide, by decide, claim_C5_seal_open _ _ 3 (by decide) (by decide)⟩

/-- Claim C6: for every well-formed line sequence with a data line,
non-empty secret, and distinct non-empty passphrases, decrypting the
encryption made under `pass1` with `pass2` fails with `DecryptionFailed`
(in the ideal-cipher model of AES-CBC: the wrong derived key surfaces as
a padding/bad-decrypt error rather than wrong plaintext). -/
theorem claim_C6_wrong_passphrase (lines : List Str) (secret pass1 pass2 : Str)
    (ivs : Nat → Nat) (hwf : ∀ l ∈ lines, wfLine l)
    (hdata : ∃ l ∈ lines, isDataLine l = true)
    (hs : secret ≠ []) (h1 : pass1 ≠ []) (h2 : pass2 ≠ []) (hne : pass1 ≠ pass2) :
    ∃ out, encryptEnvLines lines secret pass1 ivs = .ok out
      ∧ decryptEnvLines out pass2 = .error .decryptionFailed :=
  encryptEnvLines_wrong_pass lines secret pass1 pass2 ivs hs h1 h2 hne

/-- Witness for C6 at `["A=1"]`, secret `"s"`, passphrases `"pw"` and
`"px"`. -/
theorem claim_C6_wrong_passphrase_witness :
    (∀ l ∈ [("A=1").data], wfLine l)
    ∧ (∃ l ∈ [("A=1").data], isDataLine l = true)
    ∧ ("s").data ≠ [] ∧ ("pw").data ≠ [] ∧ ("px").data ≠ []
    ∧ ("pw").data ≠ ("px").data
    ∧ ∃ out, encryptEnvLines [("A=1").data] ("s").data ("pw").data (fun _ => 0) = .ok out
        ∧ decryptEnvLines out ("px").data = .error .decryptionFailed :=
  ⟨by decide, by decide, by decide, by decide, by decide, by decide,
    claim_C6_wrong_passphrase _ _ _ _ _ (by decide) (by decide) (by decide)
      (by decide) (by decide) (by decide)⟩

/-- Claim C9: `derive` is a pure deterministic function of the input
string and the fixed salt — in the embedding it is a function, and every
non-empty input yields the one fixed 32-byte derived key
`scryptSync(s, salt, 32)`, so two calls agree — while the empty input
fails with `InvalidInput` (`"Passphrase cannot be empty."`). -/
theorem claim_C9_derive_deterministic :
    (∀ s : Str, s ≠ [] → deriveKeyFromPassphrase s = .ok (.derived s salt 32))
    ∧ deriveKeyFromPassphrase [] = .error .invalidInput := by
  constructor
  · intro s hs
    unfold deriveKeyFromPassphrase
    rw [if_neg (by simpa [List.isEmpty_iff] using hs)]
    rfl
  · rfl

/-- Witness for C9 at input `"pw"`. -/
theorem claim_C9_derive_deterministic_witness :
    deriveKeyFromPassphrase ("pw").data = .ok (.derived ("pw").data salt 32)
    ∧ deriveKeyFromPassphrase [] = .error .invalidInput :=
  ⟨claim_C9_derive_deterministic.1 ("pw").data (by decide),
    claim_C9_derive_deterministic.2⟩

/-- Claim C8: `decryptFile` fails with `InvalidFormat` (the
`"Encrypted file is invalid: Secret key not found."` error) both when the
first input line does not start with the `SECRET_KEY=` header marker
(including an empty input, whose `lines[0]` is undefined), and when the
header token decrypts successfully to a string that does not match the
reserved-label pattern `/ENV_SECURE_KEY=(.+)/`. -/
theorem claim_C8_invalid_format :
    (∀ (lines : List Str) (pass : Str),
      (∀ l0, lines.head? = some l0 → "SECRET_KEY=".data.isPrefixOf l0 = false) →
      decryptEnvLines lines pass = .error .invalidFormat)
    ∧ (∀ (l0 : Str) (rest : List Str) (pass s : Str), pass ≠ [] →
        "SECRET_KEY=".data.isPrefixOf l0 = true →
        decryptString (((jsSplit '=' l0).get? 1).getD [])
          (.derived pass salt keyLength) = .ok s →
        findKeyMatch s = none →
        decryptEnvLines (l0 :: rest) pass = .error .invalidFormat) := by
  constructor
  · intro lines pass h
    cases lines with
    | nil => rfl
    | cons l0 rest =>
      simp only [decryptEnvLines, h l0 rfl, Bool.false_eq_true, if_false]
  · intro l0 rest pass s hp hpre hdec hmatch
    simp only [decryptEnvLines, hpre, if_true]
    rw [show deriveKeyFromPassphrase pass = .ok (.derived pass salt keyLength) by
      unfold deriveKeyFromPassphrase
      rw [if_neg (by simpa [List.isEmpty_iff] using hp)]]
    simp only [hdec, hmatch]

/-- Witness for C8: a file whose first line is `"X=1"` (no header), and a
file whose header wraps the string `"hello"` (which does not match the
reserved-label pattern) under passphrase `"pw"`. -/
theorem claim_C8_invalid_format_witness :
    decryptEnvLines [("X=1").data] ("pw").data = .error .invalidFormat
    ∧ decryptEnvLines
        (("SECRET_KEY=".data
          ++ ((encryptString ("hello").data (.derived ("pw").data salt keyLength) 0).toOption.getD []))
          :: [("A=1").data]) ("pw").data = .error .invalidFormat :=
  ⟨claim_C8_invalid_format.1 [("X=1").data] ("pw").data (by decide),
    claim_C8_invalid_format.2
      ("SECRET_KEY=".data
        ++ ((encryptString ("hello").data (.derived ("pw").data salt keyLength) 0).toOption.getD []))
      [("A=1").data] ("pw").data ("hello").data (by decide) (by decide) (by decide)
      (by decide)⟩

/-- Counterexample to claim C3 as stated: on input
`["A=1", "", "#comment", "B=2"]` (secret `"s3cr3t"`, passphrase `"pw"`),
`encryptFile` produces 5 output lines — the header plus one line per
input line — not 4. -/
theorem claim_C3_counterexample :
    (encryptEnvLines [("A=1").data, ([] : Str), ("#comment").data, ("B=2").data]
        ("s3cr3t").data ("pw").data (fun _ => 0)).map List.length = .ok 5
    ∧ (encryptEnvLines [("A=1").data, ([] : Str), ("#comment").data, ("B=2").data]
        ("s3cr3t").data ("pw").data (fun _ => 0)).map List.length ≠ .ok 4 := by
  constructor
  · decide
  · decide

/-- Claim C3 as amended: the same scenario produces exactly 5 output
lines (the header plus 4), with the lines at positions 2 and 3
(0-indexed, i.e. the third and fourth lines) passed through unchanged as
`""` and `"#comment"`; decrypting that output with `"pw"` reproduces the
original 4 lines exactly, and with any non-empty passphrase other than
`"pw"` it fails with `DecryptionFailed` (an empty passphrase is rejected
earlier, as `InvalidInput`). -/
theorem claim_C3_amended (p2 : Str) (hne : p2 ≠ ("pw").data) (hp2 : p2 ≠ []) :
    ∃ out,
      encryptEnvLines [("A=1").data, ([] : Str), ("#comment").data, ("B=2").data]
        ("s3cr3t").data ("pw").data (fun _ => 0) = .ok out
      ∧ out.length = 5
      ∧ out.get? 2 = some []
      ∧ out.get? 3 = some ("#comment").data
      ∧ decryptEnvLines out ("pw").data
          = .ok [("A=1").data, ([] : Str), ("#comment").data, ("B=2").data]
      ∧ decryptEnvLines out p2 = .error .decryptionFailed := by
  obtain ⟨out, henc, hwrong⟩ := encryptEnvLines_wrong_pass
    [("A=1").data, ([] : Str), ("#comment").data, ("B=2").data]
    ("s3cr3t").data ("pw").data p2 (fun _ => 0)
    (by decide) (by decide) hp2 (fun h => hne h.symm)
  obtain ⟨out2, henc2, hdec⟩ := encryptEnvLines_decryptEnvLines
    [("A=1").data, ([] : Str), ("#comment").data, ("B=2").data]
    ("s3cr3t").data ("pw").data (fun _ => 0) (by decide) (by decide)
  rw [henc] at henc2
  cases henc2
  have hlen : (encryptEnvLines [("A=1").data, ([] : Str), ("#comment").data, ("B=2").data]
      ("s3cr3t").data ("pw").data (fun _ => 0)).map List.length = .ok 5 := by decide
  have hg2 : (encryptEnvLines [("A=1").data, ([] : Str), ("#comment").data, ("B=2").data]
      ("s3cr3t").data ("pw").data (fun _ => 0)).map (fun o => o.get? 2)
      = .ok (some ([] : Str)) := by decide
  have hg3 : (encryptEnvLines [("A=1").data, ([] : Str), ("#comment").data, ("B=2").data]
      ("s3cr3t").data ("pw").data (fun _ => 0)).map (fun o => o.get? 3)
      = .ok (some ("#comment").data) := by decide
  rw [henc] at hlen hg2 hg3
  simp only [Except.map, Except.ok.injEq] at hlen hg2 hg3
  exact ⟨out, henc, hlen, hg2, hg3, hdec, hwrong⟩

/-- Witness for the amended C3 at the wrong passphrase `"px"`. -/
theorem claim_C3_amended_witness :
    ("px").data ≠ ("pw").data ∧ ("px").data ≠ []
    ∧ ∃ out,
      encryptEnvLines [("A=1").data, ([] : Str), ("#comment").data, ("B=2").data]
        ("s3cr3t").data ("pw").data (fun _ => 0) = .ok out
      ∧ out.length = 5
      ∧ out.get? 2 = some []
      ∧ out.get? 3 = some ("#comment").data
      ∧ decryptEnvLines out ("pw").data
          = .ok [("A=1").data, ([] : Str), ("#comment").data, ("B=2").data]
      ∧ decryptEnvLines out ("px").data = .error .decryptionFailed :=
  ⟨by decide, by decide, claim_C3_amended ("px").data (by decide) (by decide)⟩

/-- Counterexample to claim C2 as stated: for the `.env` file
`"#ENV_SECURE_KEY=abc"`, `getSecretKey` matches the reserved label inside
the comment line and retrieves the secret `"abc"`, encryption succeeds,
and its single non-header output line is that comment passed through
unencrypted — so the secret key value appears in plaintext inside the
encrypted file. -/
theorem claim_C2_counterexample :
    getSecretKey (some ("#ENV_SECURE_KEY=abc").data) = some ("abc").data
    ∧ (encryptEnv ("#ENV_SECURE_KEY=abc").data ("pw").data (fun _ => 0)).map
        (List.drop 1) = .ok [("#ENV_SECURE_KEY=abc").data]
    ∧ strHasSub ("abc").data ("#ENV_SECURE_KEY=abc").data = true := by
  refine ⟨by decide, by decide, by decide⟩

/-- Claim C2 as amended: after the header, every line of the encrypted
file is either a verbatim passthrough of a blank or comment input line,
or a ciphertext token produced by `encryptString` under the retrieved
secret key.  The secret key value can therefore reach the output in
plaintext only through a passed-through blank/comment line — which
happens precisely when the secret-key extraction matched inside a comment
line, as in the counterexample; ciphertext lines never carry it by
construction. -/
theorem claim_C2_amended (content pass : Str) (ivs : Nat → Nat)
    (out : List Str) (secret : Str)
    (hget : getSecretKey (some content) = some secret)
    (henc : encryptEnv content pass ivs = .ok out) :
    ∃ hdrTok rest, out = ("SECRET_KEY=".data ++ hdrTok) :: rest
      ∧ ∀ l ∈ rest, (passthroughLine l = true ∧ l ∈ jsSplit '\n' content)
        ∨ ∃ src iv, src ∈ jsSplit '\n' content ∧ passthroughLine src = false
            ∧ encryptString src (.raw secret) iv = .ok l := by
  unfold encryptEnv at henc
  simp only [hget] at henc
  by_cases hse : secret.isEmpty = true
  · rw [if_pos hse] at henc
    cases henc
  · rw [if_neg hse] at henc
    by_cases hce : content.isEmpty = true
    · rw [if_pos hce] at henc
      cases henc
    · rw [if_neg hce] at henc
      unfold encryptEnvLines at henc
      rw [if_neg hse] at henc
      cases hdk : deriveKeyFromPassphrase pass with
      | error e => simp only [hdk] at henc; cases henc
      | ok dk =>
        simp only [hdk] at henc
        cases hhdr : encryptString (label ++ secret) dk (ivs 0) with
        | error e => simp only [hhdr] at henc; cases henc
        | ok hdrTok =>
          simp only [hhdr] at henc
          cases hloop : encryptLinesLoop secret ivs 1 (jsSplit '\n' content) with
          | error e => simp only [hloop] at henc; cases henc
          | ok rest =>
            simp only [hloop, Except.ok.injEq] at henc
            subst henc
            exact ⟨hdrTok, rest, rfl,
              encryptLinesLoop_shape secret ivs (jsSplit '\n' content) 1 rest hloop⟩

/-- Witness for the amended C2 at the file `"ENV_SECURE_KEY=k\nA=1"`,
passphrase `"pw"`. -/
theorem claim_C2_amended_witness :
    getSecretKey (some ("ENV_SECURE_KEY=k\nA=1").data) = some ("k").data
    ∧ encryptEnv ("ENV_SECURE_KEY=k\nA=1").data ("pw").data (fun _ => 0)
        = .ok ((encryptEnv ("ENV_SECURE_KEY=k\nA=1").data ("pw").data
            (fun _ => 0)).toOption.getD [])
    ∧ ∃ hdrTok rest,
        (encryptEnv ("ENV_SECURE_KEY=k\nA=1").data ("pw").data
            (fun _ => 0)).toOption.getD []
          = ("SECRET_KEY=".data ++ hdrTok) :: rest
        ∧ ∀ l ∈ rest,
            (passthroughLine l = true ∧ l ∈ jsSplit '\n' ("ENV_SECURE_KEY=k\nA=1").data)
            ∨ ∃ src iv, src ∈ jsSplit '\n' ("ENV_SECURE_KEY=k\nA=1").data
                ∧ passthroughLine src = false
                ∧ encryptString src (.raw ("k").data) iv = .ok l :=
  ⟨by decide, by decide,
    claim_C2_amended ("ENV_SECURE_KEY=k\nA=1").data ("pw").data (fun _ => 0)
      _ ("k").data (by decide) (by decide)⟩

/-- Counterexample to claim C4 as stated: rotating the key of the file
`"A=1\nENV_SECURE_KEY=old"` (entering the correct current key `"old"` and
new key `"new"`) rewrites the whole file to `"ENV_SECURE_KEY=new\n"`.
The first line `"A=1"` — which does not hold the reserved label — is not
left unchanged: it is gone, so rotation does not change only the stored
secret key value. -/
theorem claim_C4_counterexample :
    rotateKeyAction (some ("A=1\nENV_SECURE_KEY=old").data) ("old").data ("new").data
      = .ok ("ENV_SECURE_KEY=new\n").data
    ∧ (jsSplit '\n' ("A=1\nENV_SECURE_KEY=old").data).get? 0 = some ("A=1").data
    ∧ strHasSub label ("A=1").data = false
    ∧ (jsSplit '\n' ("ENV_SECURE_KEY=new\n").data).get? 0 ≠ some ("A=1").data
    ∧ strHasSub ("A=1").data ("ENV_SECURE_KEY=new\n").data = false := by
  refine ⟨by decide, by decide, by decide, by decide, by decide⟩

/-- Claim C4 as amended: whenever the rotate-key action succeeds, the new
configuration file content is exactly the single reserved-label line
`ENV_SECURE_KEY=<new>` followed by a newline — `updateSecretKey`
overwrites the whole file, so no other line of the previous content is
preserved; and the action performs no encryption or decryption
whatsoever (no cipher operation occurs in it), leaving previously
encrypted data untouched. -/
theorem claim_C4_amended (file : Option Str) (current newKey : Str) (out : Str)
    (h : rotateKeyAction file current newKey = .ok out) :
    out = label ++ newKey ++ ['\n'] := by
  unfold rotateKeyAction at h
  by_cases hset : isSecretKeySet file = true
  · rw [hset] at h
    simp only [Bool.not_true, Bool.false_eq_true, if_false] at h
    cases hget : getSecretKey file with
    | none => simp only [hget] at h; cases h
    | some cur =>
      simp only [hget] at h
      by_cases hcur : current = cur
      · rw [if_neg (by simp [hcur])] at h
        by_cases hnew : newKey.isEmpty = true
        · rw [if_pos hnew] at h; cases h
        · rw [if_neg hnew] at h
          cases h
          rfl
      · rw [if_pos (by simp [hcur])] at h
        cases h
  · rw [Bool.not_eq_true] at hset
    rw [hset] at h
    simp only [Bool.not_false, if_true] at h
    cases h

/-- Witness for the amended C4 at the file `"ENV_SECURE_KEY=old"`. -/
theorem claim_C4_amended_witness :
    rotateKeyAction (some ("ENV_SECURE_KEY=old").data) ("old").data ("new").data
      = .ok ("ENV_SECURE_KEY=new\n").data
    ∧ ("ENV_SECURE_KEY=new\n").data = label ++ ("new").data ++ ['\n'] :=
  ⟨by decide,
    claim_C4_amended (some ("ENV_SECURE_KEY=old").data) ("old").data ("new").data
      ("ENV_SECURE_KEY=new\n").data (by decide)⟩

theorem jsSplit_token_extra (iv : Nat) (flat text junk : Str) :
    jsSplit ':' ((natToHexLE 32 iv ++ ':' :: bodyEnc flat text) ++ ':' :: junk)
      = natToHexLE 32 iv :: bodyEnc flat text :: jsSplit ':' junk := by
  rw [List.append_assoc, List.cons_append]
  rw [jsSplit_first (bodyEnc flat text ++ ':' :: junk) (fun c hc => by
    obtain ⟨m, rfl⟩ := mem_natToHexLE hc
    exact hexDigitChar_ne_colon m)]
  rw [jsSplit_first junk (fun c hc => by
    obtain ⟨m, rfl⟩ := mem_bodyEnc hc
    exact hexDigitChar_ne_colon m)]

/-- Tokens with trailing `":" ++ junk` appended: `split(":")`
destructuring keeps only the first two parts, so the junk is ignored and
decryption proceeds exactly as without it. -/
theorem decryptString_token_extra (iv : Nat) (flat text junk : Str) (k : KeyM)
    (hk : k.valid = true) :
    decryptString ((natToHexLE 32 iv ++ ':' :: bodyEnc flat text) ++ ':' :: junk) k
      = if flat = deriveFlat k then .ok text else .error .decryptionFailed := by
  have hcnt : hexPairCount (natToHexLE 32 iv) = 16 := by
    have h := hexPairCount_natToHexLE 16 iv
    norm_num at h
    exact h
  have hne : ((natToHexLE 32 iv ++ ':' :: bodyEnc flat text) ++ ':' :: junk).isEmpty
      = false := by
    show (hexDigitChar (iv % 16)
      :: ((natToHexLE 31 (iv / 16) ++ ':' :: bodyEnc flat text) ++ ':' :: junk)).isEmpty = false
    rfl
  have hiv : (natToHexLE 32 iv).isEmpty = false := by
    have hl := length_natToHexLE 32 iv
    cases h : natToHexLE 32 iv with
    | nil => rw [h] at hl; simp at hl
    | cons a t => rfl
  have hbody : (bodyEnc flat text).isEmpty = false := by
    cases flat with
    | nil => rfl
    | cons c t => rfl
  simp only [decryptString, keyFalsy_eq_false hk, hne, Bool.or_false,
    Bool.false_eq_true, if_false, jsSplit_token_extra, List.get?_cons_zero,
    List.get?_cons_succ, hiv, hbody, Bool.or_self, hcnt, bodyDecode_bodyEnc,
    reduceCtorEq, reduceIte]
  rw [if_neg (by simp)]

/-- Counterexample to claim C7 as stated: take the valid token sealing
`"hi"` under key `"k"` and append `":zz"`.  Splitting on the *first*
colon leaves `"<body>:zz"` as the ciphertext part, which is not valid hex
(it contains a colon), so by the claim `open` must fail with
`MalformedToken` — but the code splits on *every* colon, keeps only the
first two parts, never validates hex, and succeeds, returning `"hi"`. -/
theorem claim_C7_counterexample :
    (specSplitFirstColon
        ((encryptString ("hi").data (.raw ("k").data) 0).toOption.getD []
          ++ ':' :: ("zz").data)).map (fun pr => specIsHex pr.2) = some false
    ∧ decryptString
        ((encryptString ("hi").data (.raw ("k").data) 0).toOption.getD []
          ++ ':' :: ("zz").data) (.raw ("k").data) = .ok ("hi").data := by
  refine ⟨by decide, by decide⟩

/-- Claim C7 as amended: for a valid key, `open` fails with
`InvalidInput` on the empty token; on a non-empty token it fails with
`MalformedToken` exactly when, splitting on *every* colon, the first part
is empty or the second part (the segment strictly between the first and
second colon) is missing or empty; no hex validation of the ciphertext
part is performed — in particular anything after a second colon is
ignored, and a trailing `":" ++ junk` appended to a valid token still
opens to the original plaintext. -/
theorem claim_C7_amended :
    (∀ k : KeyM, k.valid = true → decryptString [] k = .error .invalidInput)
    ∧ (∀ (tok : Str) (k : KeyM), k.valid = true → tok ≠ [] →
        (decryptString tok k = .error .malformedToken
          ↔ ((jsSplit ':' tok).get? 0 = some []
            ∨ (jsSplit ':' tok).get? 1 = none
            ∨ (jsSplit ':' tok).get? 1 = some [])))
    ∧ (∀ (text junk : Str) (k : KeyM) (iv : Nat), text ≠ [] → k.valid = true →
        ∃ tok, encryptString text k iv = .ok tok
          ∧ decryptString (tok ++ ':' :: junk) k = .ok text) := by
  refine ⟨?_, ?_, ?_⟩
  · intro k _
    rfl
  · intro tok k hk htok
    have hemp : tok.isEmpty = false := by
      cases tok with
      | nil => exact absurd rfl htok
      | cons a t => rfl
    unfold decryptString
    rw [keyFalsy_eq_false hk, hemp]
    simp only [Bool.or_false, Bool.false_eq_true, if_false]
    cases hsp : jsSplit ':' tok with
    | nil => exact absurd hsp (jsSplit_ne_nil ':' tok)
    | cons p0 ps =>
      cases ps with
      | nil =>
        simp only [List.get?_cons_zero, List.get?_cons_succ, List.get?_nil]
        simp
      | cons p1 ps' =>
        simp only [List.get?_cons_zero, List.get?_cons_succ]
        by_cases h0 : p0.isEmpty = true
        · have : p0 = [] := by simpa [List.isEmpty_iff] using h0
          subst this
          simp
        · rw [Bool.not_eq_true] at h0
          by_cases h1 : p1.isEmpty = true
          · have : p1 = [] := by simpa [List.isEmpty_iff] using h1
            subst this
            simp
          · rw [Bool.not_eq_true] at h1
            rw [h0, h1]
            simp only [Bool.or_self, Bool.false_eq_true, if_false]
            have hp0 : p0 ≠ [] := by simpa [List.isEmpty_iff] using h0
            have hp1 : p1 ≠ [] := by simpa [List.isEmpty_iff] using h1
            constructor
            · intro h
              by_cases hc : hexPairCount p0 = 16
              · rw [if_neg (by simp [hc])] at h
                cases hbd : bodyDecode p1 with
                | none => simp only [hbd] at h; simp at h
                | some pr =>
                  rcases pr with ⟨flat, text⟩
                  simp only [hbd] at h
                  by_cases hfl : flat = deriveFlat k
                  · rw [if_pos hfl] at h; simp at h
                  · rw [if_neg hfl] at h; simp at h
              · rw [if_pos (by simp [hc])] at h
                simp at h
            · intro h
              rcases h with h | h | h
              · exact absurd (by simpa using h) hp0
              · cases h
              · exact absurd (by simpa using h) hp1
  · intro text junk k iv ht hk
    refine ⟨_, encryptString_ok iv ht hk, ?_⟩
    rw [decryptString_token_extra iv _ text junk k hk, if_pos rfl]

/-- Witness for the amended C7: the empty token under key `"k"`; the
malformed-token characterization at the token `"ab:"`; and the
junk-tolerant opening at plaintext `"hi"`, junk `"zz"`. -/
theorem claim_C7_amended_witness :
    decryptString [] (.raw ("k").data) = .error .invalidInput
    ∧ (decryptString ("ab:").data (.raw ("k").data) = .error .malformedToken
        ↔ ((jsSplit ':' ("ab:").data).get? 0 = some []
          ∨ (jsSplit ':' ("ab:").data).get? 1 = none
          ∨ (jsSplit ':' ("ab:").data).get? 1 = some []))
    ∧ ∃ tok, encryptString ("hi").data (.raw ("k").data) 7 = .ok tok
        ∧ decryptString (tok ++ ':' :: ("zz").data) (.raw ("k").data)
            = .ok ("hi").data :=
  ⟨claim_C7_amended.1 (.raw ("k").data) (by decide),
    claim_C7_amended.2.1 ("ab:").data (.raw ("k").data) (by decide) (by decide),
    claim_C7_amended.2.2 ("hi").data ("zz").data (.raw ("k").data) 7 (by decide)
      (by decide)⟩

theorem list_find?_congr {p q : Nat → Bool} {l : List Nat}
    (h : ∀ x ∈ l, p x = q x) : l.find? p = l.find? q := by
  induction l with
  | nil => rfl
  | cons a t ih =>
    rw [List.find?_cons, List.find?_cons, h a (by simp)]
    cases hqa : q a with
    | true => rfl
    | false => exact ih (fun x hx => h x (by simp [hx]))

/-- The regex scan equals its positional description: the first index at
which the label occurs followed by a non-empty same-line remainder. -/
theorem findKeyMatch_positional (c : Str) :
    findKeyMatch c = ((List.range c.length).find? (fun i =>
        label.isPrefixOf (c.drop i)
        && !((c.drop (i + label.length)).takeWhile (fun x => !isLineTerm x)).isEmpty)).map
      (fun i => (c.drop (i + label.length)).takeWhile (fun x => !isLineTerm x)) := by
  induction c with
  | nil => rfl
  | cons ch t ih =>
    rw [show (ch :: t : Str).length = t.length + 1 from rfl, List.range_succ_eq_map,
      List.find?_cons]
    by_cases h0 : (label.isPrefixOf ((ch :: t : Str).drop 0)
        && !((((ch :: t : Str)).drop (0 + label.length)).takeWhile
            (fun x => !isLineTerm x)).isEmpty) = true
    · rw [h0]
      rw [Bool.and_eq_true, Bool.not_eq_true', List.drop_zero] at h0
      obtain ⟨hpre, hrem⟩ := h0
      show findKeyMatch (ch :: t) = some _
      rw [show findKeyMatch (ch :: t)
          = if label.isPrefixOf (ch :: t) then
              (if (((ch :: t : Str)).drop label.length).takeWhile
                  (fun x => !isLineTerm x) |>.isEmpty
               then findKeyMatch t
               else some ((((ch :: t : Str)).drop label.length).takeWhile
                  (fun x => !isLineTerm x)))
            else findKeyMatch t from rfl]
      rw [if_pos hpre]
      rw [if_neg (by simp only [Nat.zero_add] at hrem; rw [hrem]; simp)]
      simp [Nat.zero_add]
    · rw [Bool.not_eq_true] at h0
      rw [h0]
      have hstep : findKeyMatch (ch :: t) = findKeyMatch t := by
        rw [show findKeyMatch (ch :: t)
            = if label.isPrefixOf (ch :: t) then
                (if (((ch :: t : Str)).drop label.length).takeWhile
                    (fun x => !isLineTerm x) |>.isEmpty
                 then findKeyMatch t
                 else some ((((ch :: t : Str)).drop label.length).takeWhile
                    (fun x => !isLineTerm x)))
              else findKeyMatch t from rfl]
        rw [Bool.and_eq_false_iff] at h0
        rcases h0 with h0 | h0
        · rw [List.drop_zero] at h0
          rw [h0]
          rfl
        · by_cases hpre : label.isPrefixOf (ch :: t) = true
          · rw [hpre]
            rw [if_pos rfl]
            rw [if_pos (by
              simp only [Bool.not_eq_false'] at h0
              simpa [Nat.zero_add] using h0)]
          · rw [Bool.not_eq_true] at hpre
            rw [hpre]
            rfl
      rw [hstep, ih, List.find?_map]
      rw [@list_find?_congr ((fun i =>
          label.isPrefixOf ((ch :: t : Str).drop i)
          && !(((ch :: t : Str).drop (i + label.length)).takeWhile
              (fun x => !isLineTerm x)).isEmpty) ∘ Nat.succ)
        (fun i => label.isPrefixOf (t.drop i)
          && !((t.drop (i + label.length)).takeWhile (fun x => !isLineTerm x)).isEmpty)
        (List.range t.length)
        (fun i _ => by
          show (label.isPrefixOf ((ch :: t : Str).drop (i + 1))
            && !(((ch :: t : Str).drop (i + 1 + label.length)).takeWhile
                (fun x => !isLineTerm x)).isEmpty) = _
          rw [List.drop_succ_cons, show i + 1 + label.length = (i + label.length) + 1 by omega,
            List.drop_succ_cons])]
      rw [Option.map_map]
      congr 1

/-- Counterexample to claim C10 as stated: in the file
`"ENV_SECURE_KEY=\nENV_SECURE_KEY=abc"` the *first* occurrence of the
label has an empty remainder, whose trim is `""` — but `getSecretKey`
returns `"abc"`: the regex `(.+)` requires a non-empty remainder, so the
engine skips that first occurrence and matches the second, rather than
returning the (trimmed) remainder of the first occurrence. -/
theorem claim_C10_counterexample :
    claimFirstLabelRemainder ("ENV_SECURE_KEY=\nENV_SECURE_KEY=abc").data = some []
    ∧ getSecretKey (some ("ENV_SECURE_KEY=\nENV_SECURE_KEY=abc").data)
        = some ("abc").data
    ∧ getSecretKey (some ("ENV_SECURE_KEY=\nENV_SECURE_KEY=abc").data)
        ≠ claimFirstLabelRemainder ("ENV_SECURE_KEY=\nENV_SECURE_KEY=abc").data := by
  refine ⟨by decide, by decide, by decide⟩

/-- Claim C10 as amended: `getSecretKey` matches the reserved label
anywhere in the file text — also inside a comment line or a longer
variable name — and returns the trimmed same-line remainder of the
*first occurrence that is followed by at least one non-line-terminator
character* (occurrences with nothing after `=` on their line are
skipped); it returns `null` when the file is absent or no such occurrence
exists. -/
theorem claim_C10_amended :
    (∀ content : Str, getSecretKey (some content) = amendedSpecGetSecret content)
    ∧ getSecretKey none = none
    ∧ getSecretKey (some ("#ENV_SECURE_KEY=x").data) = some ("x").data
    ∧ getSecretKey (some ("MY_ENV_SECURE_KEY=x").data) = some ("x").data
    ∧ getSecretKey (some ("ENV_SECURE_KEY= x ").data) = some ("x").data
    ∧ getSecretKey (some ("A=1").data) = none := by
  refine ⟨?_, rfl, by decide, by decide, by decide, by decide⟩
  intro content
  show (findKeyMatch content).map jsTrim = _
  rw [findKeyMatch_positional]
  unfold amendedSpecGetSecret
  rw [Option.map_map]
  rfl

/-- Witness for the amended C10 at the file `"#ENV_SECURE_KEY=x"`. -/
theorem claim_C10_amended_witness :
    getSecretKey (some ("#ENV_SECURE_KEY=x").data)
      = amendedSpecGetSecret ("#ENV_SECURE_KEY=x").data
    ∧ getSecretKey none = none
    ∧ amendedSpecGetSecret ("#ENV_SECURE_KEY=x").data = some ("x").data :=
  ⟨claim_C10_amended.1 ("#ENV_SECURE_KEY=x").data, claim_C10_amended.2.1, by decide⟩

end EnvSecure
